import Mathlib

/-!
Verification of the DRE parallel model-fitting engine
(`src/DRE/core/dre_cpu.py`) and the cutout id format of
(`src/DRE/core/cuts.py`) against its specification.

Shallow embedding conventions:
* 2-D float arrays (`obj`, `rms`, psf, mosaics) are `List (List ℚ)`;
  2-D boolean masks (`seg`) are `List (List Bool)`.
* A score-cube cell is `Option ℚ`, where `none` stands for the IEEE NaN
  produced by the fitting kernel; `np.isnan` is `Option.isNone`.
  No claim depends on float arithmetic, only on NaN-ness of cells.
* Object ids (h5 keys) are `List Char`; Python's `str.split('_')` and
  `int(...)` (applied to plain digit strings, the only shape the engine
  meets) are embedded as `splitOnChar` and `parseNatChars`.
* External collaborators absent from `src/` (`ModelsCube.dre_fit`,
  `ModelsCube.get_parameters`, `ModelsCube.make_mosaic`,
  `scipy.signal.fftconvolve`, `get_psf`, h5 i/o) are universally
  quantified function parameters, per the spec's black-box contracts.
-/

namespace DRE

/-- A 2-D float array (`numpy` float image). -/
abbrev Img : Type := List (List ℚ)

/-- A 2-D boolean array (segmentation mask). -/
abbrev Mask : Type := List (List Bool)

/-- One cell of a score cube: `none` models NaN, `some q` a real value. -/
abbrev Val : Type := Option ℚ

/-- The score cube returned by `model.dre_fit`, with cells listed in any
fixed order (its 4-D shape is irrelevant to every claim; only the
multiset of cells matters for NaN-ness). -/
abbrev ScoreCube : Type := List Val

/-- `np.isnan` on one cell. -/
def isNaNCell (v : Val) : Bool := v.isNone

/-- `np.isnan(chi_cube).all()` of `dre_cpu.py` line 71. -/
def allNaN (c : ScoreCube) : Bool := c.all isNaNCell

/-- Modelled from the spec: the best-fit output of
`ModelsCube.get_parameters` (`DRE/core/models.py`, not under `src/`);
the worker only reads the three best-fit indices `E_IDX`, `T_IDX`,
`R_IDX` from it (`dre_cpu.py` line 78). -/
structure BaseParams where
  e_idx : Nat
  t_idx : Nat
  r_idx : Nat
deriving DecidableEq

/-- The parameter mapping a worker attaches to a successful result:
the `get_parameters` output plus the two integer fields `EXT_NUMBER`
and `NUMBER` parsed from the object id (`dre_cpu.py` lines 73-76). -/
structure Params where
  base : BaseParams
  ext_number : Nat
  number : Nat
deriving DecidableEq

/-- A work item of the input queue: `(name, data['obj'], data['seg'],
data['rms'])` as enqueued by `feed_workers` (`dre_cpu.py` line 93). -/
structure WorkItem where
  name : List Char
  obj : Img
  seg : Mask
  rms : Img
deriving DecidableEq

/-- The result tuple `(name, success, chi_cube, parameters, mosaic)`
pushed by `cpu_worker` (`dre_cpu.py` line 80). -/
structure FitResult where
  name : List Char
  success : Bool
  chiCube : ScoreCube
  params : Option Params
  mosaic : Option Img
deriving DecidableEq

/-! ### Object-id strings: formatting (cuts.py) and parsing (dre_cpu.py) -/

/-- Python `str.split(sep)` on a single separator character. -/
def splitOnChar (sep : Char) : List Char → List (List Char)
  | [] => [[]]
  | c :: rest =>
    match splitOnChar sep rest with
    | [] => [[c]]
    | h :: t => if c = sep then [] :: h :: t else (c :: h) :: t

/-- Value of a decimal digit character. -/
def charVal (c : Char) : Nat := c.toNat - 48

/-- The decimal digit character for `d < 10`. -/
def digitChar10 (d : Nat) : Char := Char.ofNat (48 + d)

/-- Numeric value of a big-endian decimal digit string. -/
def charsToNat (l : List Char) : Nat :=
  Nat.ofDigits 10 ((l.map charVal).reverse)

/-- Python `int(s)` restricted to the plain digit strings the engine
actually parses (ids written by `cuts.py`): succeeds exactly on
nonempty all-digit strings, accepting leading zeros. -/
def parseNatChars (l : List Char) : Option Nat :=
  if l ≠ [] ∧ l.all Char.isDigit then some (charsToNat l) else none

/-- `ext, numb = name.split('_'); int(ext); int(numb)` of `cpu_worker`
(`dre_cpu.py` lines 74-76): requires exactly two fields around `'_'`,
both numeric; `none` models the uncaught `ValueError` that would kill
the worker process. -/
def parseName (s : List Char) : Option (Nat × Nat) :=
  match splitOnChar '_' s with
  | [a, b] =>
    match parseNatChars a, parseNatChars b with
    | some x, some y => some (x, y)
    | _, _ => none
  | _ => none

/-- Big-endian decimal digits of `n` (empty for `0`, as the padding
below always supplies at least one character, matching `f"{n:0wd}"`). -/
def natChars (n : Nat) : List Char :=
  ((Nat.digits 10 n).reverse).map digitChar10

/-- Python `f"{n:0wd}"` for natural `n`: decimal digits of `n`
zero-padded on the left to a minimum width `w`. -/
def padNum (w n : Nat) : List Char :=
  List.replicate (w - (natChars n).length) '0' ++ natChars n

/-- The h5 group key `f"{ext_number:02d}_{row['NUMBER']:04d}"` written
by `Cutter.cut_image` (`cuts.py` line 95); catalog ids are nonnegative
integers. -/
def formatObjectId (ext num : Nat) : List Char :=
  padNum 2 ext ++ '_' :: padNum 4 num

/-! ### The worker's per-item processing (`cpu_worker`, lines 67-81) -/

/-- The body of `cpu_worker`'s pull loop for one non-sentinel item
(`dre_cpu.py` lines 67-81): run the fitting kernel, decide success by
NaN-ness of the score cube, on success parse the id into `EXT_NUMBER`
and `NUMBER`, optionally render a mosaic, and return the result tuple.
`none` models the worker process dying from an uncaught `ValueError`
when the id does not parse. `fitK` stands for `model.dre_fit` against
the convolved cube, `gp` for `model.get_parameters`, `mm` for
`model.make_mosaic` (all in `models.py`, outside `src/`). -/
def processItem (fitK : Img → Mask → Img → ScoreCube)
    (gp : ScoreCube → BaseParams) (mm : Img → Mask → Nat × Nat × Nat → Img)
    (saveM : Bool) (w : WorkItem) : Option FitResult :=
  let chi := fitK w.obj w.seg w.rms
  let success := !(allNaN chi)
  if success then
    match parseName w.name with
    | none => none
    | some (ext, numb) =>
      let p : Params := ⟨gp chi, ext, numb⟩
      let mosaic : Option Img :=
        if saveM then some (mm w.obj w.seg (p.base.e_idx, p.base.t_idx, p.base.r_idx))
        else none
      some ⟨w.name, true, chi, some p, mosaic⟩
  else
    some ⟨w.name, false, chi, none, none⟩

/-! ### The collector's per-result processing (`get_output`, lines 101-120) -/

/-- The collector-owned state: the in-memory summary table (rows are the
appended `params` values), the entries streamed into the output score
archive, the mosaic files written, and the `completed` counter. -/
structure CollectSt where
  table : List (Option Params)
  archive : List (List Char × ScoreCube)
  mosaics : List (List Char × Option Img)
  completed : Nat
deriving DecidableEq

/-- The body of `get_output`'s loop for one dequeued result
(`dre_cpu.py` lines 105-117): on success append the parameter row,
stream the score cube into the output archive under the object id, and
(when mosaics are enabled) write the mosaic file; on failure change
nothing; in both cases acknowledge and advance `completed`. -/
def collectStep (saveM : Bool) (st : CollectSt) (r : FitResult) : CollectSt :=
  if r.success then
    { table := st.table ++ [r.params]
      archive := st.archive ++ [(r.name, r.chiCube)]
      mosaics := if saveM then st.mosaics ++ [(r.name, r.mosaic)] else st.mosaics
      completed := st.completed + 1 }
  else
    { st with completed := st.completed + 1 }

/-! ### Lemmas on decimal digit strings -/

theorem splitOnChar_ne_nil (sep : Char) (l : List Char) : splitOnChar sep l ≠ [] := by
  cases l with
  | nil => simp [splitOnChar]
  | cons c rest =>
    simp only [splitOnChar]
    cases splitOnChar sep rest with
    | nil => simp
    | cons h t =>
      by_cases hc : c = sep <;> simp [hc]

theorem splitOnChar_of_not_mem (sep : Char) (l : List Char) (h : sep ∉ l) :
    splitOnChar sep l = [l] := by
  induction l with
  | nil => rfl
  | cons c rest ih =>
    have hc : c ≠ sep := fun hcc => h (by simp [hcc])
    have hrest : sep ∉ rest := fun hm => h (List.mem_cons_of_mem _ hm)
    simp only [splitOnChar, ih hrest]
    simp [hc]

theorem splitOnChar_append_sep (sep : Char) (a b : List Char) (ha : sep ∉ a) :
    splitOnChar sep (a ++ sep :: b) = a :: splitOnChar sep b := by
  induction a with
  | nil =>
    simp only [List.nil_append, splitOnChar]
    cases hb : splitOnChar sep b with
    | nil => exact absurd hb (splitOnChar_ne_nil sep b)
    | cons h t => simp
  | cons c a' ih =>
    have hc : c ≠ sep := fun hcc => ha (by simp [hcc])
    have ha' : sep ∉ a' := fun hm => ha (List.mem_cons_of_mem _ hm)
    simp only [List.cons_append, splitOnChar, List.append_eq]
    rw [ih ha']
    simp [hc]

theorem charVal_zeroChar : charVal '0' = 0 := by decide

theorem digitChar10_isDigit {d : Nat} (hd : d < 10) : (digitChar10 d).isDigit = true := by
  interval_cases d <;> decide

theorem charVal_digitChar10 {d : Nat} (hd : d < 10) : charVal (digitChar10 d) = d := by
  interval_cases d <;> decide

theorem natChars_all_digits (n : Nat) : ∀ c ∈ natChars n, c.isDigit = true := by
  intro c hc
  simp only [natChars, List.mem_map, List.mem_reverse] at hc
  obtain ⟨d, hd, rfl⟩ := hc
  exact digitChar10_isDigit (Nat.digits_lt_base (by norm_num) hd)

theorem padNum_all_digits (w n : Nat) : ∀ c ∈ padNum w n, c.isDigit = true := by
  intro c hc
  rcases List.mem_append.mp hc with h | h
  · rcases List.eq_of_mem_replicate h with rfl
    decide
  · exact natChars_all_digits n c h

theorem padNum_length (w n : Nat) : w ≤ (padNum w n).length := by
  simp only [padNum, List.length_append, List.length_replicate]
  omega

theorem ofDigits_replicate_zero (b k : Nat) :
    Nat.ofDigits b (List.replicate k 0) = 0 := by
  induction k with
  | zero => rfl
  | succ k ih => simp [List.replicate_succ, Nat.ofDigits_cons, ih]

theorem charsToNat_padNum (w n : Nat) : charsToNat (padNum w n) = n := by
  have hmap : (natChars n).map charVal = (Nat.digits 10 n).reverse := by
    simp only [natChars, List.map_map]
    have : ∀ d ∈ (Nat.digits 10 n).reverse, (charVal ∘ digitChar10) d = id d := by
      intro d hd
      simp only [Function.comp_apply, id_eq]
      exact charVal_digitChar10 (Nat.digits_lt_base (by norm_num) (List.mem_reverse.mp hd))
    rw [List.map_congr_left this, List.map_id]
  simp only [charsToNat, padNum, List.map_append, List.map_replicate, charVal_zeroChar,
    hmap, List.reverse_append, List.reverse_reverse, List.reverse_replicate]
  rw [Nat.ofDigits_append, Nat.ofDigits_digits, ofDigits_replicate_zero]
  ring

theorem parseNatChars_padNum {w : Nat} (n : Nat) (hw : 0 < w) :
    parseNatChars (padNum w n) = some n := by
  have hne : padNum w n ≠ [] := by
    intro h
    have := padNum_length w n
    rw [h] at this
    simp at this
    omega
  have hall : (padNum w n).all Char.isDigit = true :=
    List.all_eq_true.mpr (padNum_all_digits w n)
  simp [parseNatChars, hne, hall, charsToNat_padNum]

theorem underscore_not_mem_padNum (w n : Nat) : '_' ∉ padNum w n := by
  intro h
  have := padNum_all_digits w n _ h
  exact absurd this (by decide)

/-- C9: the object ids written by `Cutter.cut_image` consist of the
zero-padded extension number, one underscore, and the zero-padded
catalog number, so the worker's split-and-convert parse always
succeeds and recovers exactly the two integers. -/
theorem claim_c9_cutter_ids_parse (ext num : Nat) :
    splitOnChar '_' (formatObjectId ext num) = [padNum 2 ext, padNum 4 num] ∧
    parseName (formatObjectId ext num) = some (ext, num) := by
  have hsplit : splitOnChar '_' (formatObjectId ext num) = [padNum 2 ext, padNum 4 num] := by
    rw [formatObjectId, splitOnChar_append_sep _ _ _ (underscore_not_mem_padNum 2 ext),
      splitOnChar_of_not_mem _ _ (underscore_not_mem_padNum 4 num)]
  refine ⟨hsplit, ?_⟩
  simp only [parseName, hsplit, parseNatChars_padNum ext (show (0 : Nat) < 2 by norm_num),
    parseNatChars_padNum num (show (0 : Nat) < 4 by norm_num)]

/-! ### Claims about the worker body and the collector body -/

/-- C2: for every consumed work item that yields a result, the result's
success flag is true exactly when the score cube returned by the
fitting kernel is not entirely NaN, and the result carries that cube. -/
theorem claim_c2_success_iff_not_all_nan (fitK : Img → Mask → Img → ScoreCube)
    (gp : ScoreCube → BaseParams) (mm : Img → Mask → Nat × Nat × Nat → Img)
    (saveM : Bool) (w : WorkItem) (r : FitResult)
    (h : processItem fitK gp mm saveM w = some r) :
    (r.success = true ↔ allNaN (fitK w.obj w.seg w.rms) = false) ∧
    r.chiCube = fitK w.obj w.seg w.rms := by
  cases hA : allNaN (fitK w.obj w.seg w.rms) with
  | false =>
    simp only [processItem, hA, Bool.not_false, if_true] at h
    cases hp : parseName w.name with
    | none => rw [hp] at h; exact absurd h (by simp)
    | some v =>
      obtain ⟨ext, numb⟩ := v
      rw [hp] at h
      cases h
      simp
  | true =>
    simp only [processItem, hA, Bool.not_true, if_false] at h
    cases h
    simp

/-- C3: a failed result (all-NaN score cube) produces no summary-table
row, no output-archive entry and no mosaic file: the collector's step
only advances the `completed` counter and the run continues. -/
theorem claim_c3_failed_result_dropped (saveM : Bool) (st : CollectSt) (r : FitResult)
    (h : r.success = false) :
    collectStep saveM st r = { st with completed := st.completed + 1 } := by
  simp [collectStep, h]

/-- C7: every successful result carries a parameter mapping whose
`EXT_NUMBER` and `NUMBER` fields are exactly the two integers parsed
from the result's object id around the underscore. -/
theorem claim_c7_parameters_match_id (fitK : Img → Mask → Img → ScoreCube)
    (gp : ScoreCube → BaseParams) (mm : Img → Mask → Nat × Nat × Nat → Img)
    (saveM : Bool) (w : WorkItem) (r : FitResult)
    (h : processItem fitK gp mm saveM w = some r) (hs : r.success = true) :
    ∃ p, r.params = some p ∧ parseName r.name = some (p.ext_number, p.number) := by
  cases hA : allNaN (fitK w.obj w.seg w.rms) with
  | false =>
    simp only [processItem, hA, Bool.not_false, if_true] at h
    cases hp : parseName w.name with
    | none => rw [hp] at h; exact absurd h (by simp)
    | some v =>
      obtain ⟨ext, numb⟩ := v
      rw [hp] at h
      cases h
      exact ⟨_, rfl, hp⟩
  | true =>
    simp only [processItem, hA, Bool.not_true, if_false] at h
    cases h
    exact absurd hs (by simp)

/-! ### Concrete instantiations of the external collaborators, used by
the closed witness theorems -/

/-- A fitting kernel returning a one-cell non-NaN score cube. -/
def cFitOk : Img → Mask → Img → ScoreCube := fun _ _ _ => [some 0]

/-- A fitting kernel returning an all-NaN score cube. -/
def cFitNaN : Img → Mask → Img → ScoreCube := fun _ _ _ => [none]

/-- A trivial `get_parameters`. -/
def cGp : ScoreCube → BaseParams := fun _ => ⟨0, 0, 0⟩

/-- A trivial `make_mosaic`. -/
def cMm : Img → Mask → Nat × Nat × Nat → Img := fun _ _ _ => []

/-- A concrete work item named `00_0001`. -/
def cItem : WorkItem := ⟨"00_0001".data, [], [], []⟩

/-- The result `cpu_worker` produces from `cItem` under `cFitOk`. -/
def cResOk : FitResult := ⟨"00_0001".data, true, [some 0], some ⟨⟨0, 0, 0⟩, 0, 1⟩, none⟩

/-- The result `cpu_worker` produces from `cItem` under `cFitNaN`. -/
def cResBad : FitResult := ⟨"00_0001".data, false, [none], none, none⟩

theorem claim_c2_success_iff_not_all_nan_witness :
    processItem cFitOk cGp cMm false cItem = some cResOk ∧
    ((cResOk.success = true ↔ allNaN (cFitOk cItem.obj cItem.seg cItem.rms) = false) ∧
      cResOk.chiCube = cFitOk cItem.obj cItem.seg cItem.rms) :=
  ⟨by decide, claim_c2_success_iff_not_all_nan cFitOk cGp cMm false cItem cResOk (by decide)⟩

theorem claim_c3_failed_result_dropped_witness :
    cResBad.success = false ∧
    collectStep false ⟨[], [], [], 0⟩ cResBad = ⟨[], [], [], 1⟩ :=
  ⟨by decide, claim_c3_failed_result_dropped false ⟨[], [], [], 0⟩ cResBad (by decide)⟩

theorem claim_c7_parameters_match_id_witness :
    (processItem cFitOk cGp cMm false cItem = some cResOk ∧ cResOk.success = true) ∧
    ∃ p, cResOk.params = some p ∧
      parseName cResOk.name = some (p.ext_number, p.number) :=
  ⟨⟨by decide, by decide⟩,
    claim_c7_parameters_match_id cFitOk cGp cMm false cItem cResOk (by decide) (by decide)⟩

/-! ### The feeder thread (`feed_workers`, lines 85-99) -/

/-- An item of the bounded input queue: a work item or the `'STOP'`
sentinel. -/
inductive QItem
  | work (w : WorkItem)
  | stop
deriving DecidableEq

/-- Whether a queue item is a real work item (not the sentinel). -/
def QItem.isWork : QItem → Bool
  | QItem.work _ => true
  | QItem.stop => false

/-- Outcome of one `input_queue.put(..., timeout=2)` attempt: it either
enqueues, or raises `queue.Full` after the timeout. -/
inductive PutObs
  | ok
  | full
deriving DecidableEq

/-- The feeder loop of `feed_workers` (`dre_cpu.py` lines 86-96) as a
thread-local function of its environment: `oracle t` tells whether the
put attempt of iteration `t` succeeds or raises `queue.Full` after its
2-second timeout (on `full` the loop retries the same item), and
`term t` is the value of the shared cancellation flag read at the
loop-condition check of iteration `t`. `fuel` bounds the modelled
iterations; `none` means the loop is still running after `fuel`
iterations. Returns the work items enqueued, in order, and the tick at
which the loop exited. -/
def feedLoop (names : List WorkItem) (oracle : Nat → PutObs) (term : Nat → Bool) :
    Nat → Nat → Nat → Option (List QItem × Nat)
  | 0, _, _ => none
  | fuel + 1, submitted, t =>
    if h : submitted < names.length ∧ term t = false then
      match oracle t with
      | PutObs.ok =>
        (feedLoop names oracle term fuel (submitted + 1) (t + 1)).map
          (fun p => (QItem.work (names.get ⟨submitted, h.1⟩) :: p.1, p.2))
      | PutObs.full => feedLoop names oracle term fuel submitted (t + 1)
    else some ([], t)

/-- `feed_workers` (`dre_cpu.py` lines 85-99): run the submission loop,
then — only when the cancellation flag is unset at the post-loop check
(line 97) — enqueue exactly one `'STOP'` sentinel per worker. -/
def feedWorkers (names : List WorkItem) (nProc : Nat) (oracle : Nat → PutObs)
    (term : Nat → Bool) (fuel : Nat) : Option (List QItem) :=
  (feedLoop names oracle term fuel 0 0).map fun p =>
    p.1 ++ (if term p.2 = false then List.replicate nProc QItem.stop else [])

theorem feedLoop_spec (names : List WorkItem) (oracle : Nat → PutObs)
    (term : Nat → Bool) :
    ∀ fuel s t l t', feedLoop names oracle term fuel s t = some (l, t') →
      ∃ k, s ≤ k ∧ l = ((names.drop s).take (k - s)).map QItem.work ∧
        (term t' = false → ¬ k < names.length) := by
  intro fuel
  induction fuel with
  | zero => intro s t l t' h; exact absurd h (by simp [feedLoop])
  | succ fuel ih =>
    intro s t l t' h
    rw [feedLoop] at h
    by_cases hcond : s < names.length ∧ term t = false
    · rw [dif_pos hcond] at h
      cases hor : oracle t with
      | ok =>
        rw [hor] at h
        cases hrec : feedLoop names oracle term fuel (s + 1) (t + 1) with
        | none => rw [hrec] at h; exact absurd h (by simp)
        | some p =>
          obtain ⟨l', t''⟩ := p
          rw [hrec] at h
          simp only [Option.map_some', Option.some.injEq, Prod.mk.injEq] at h
          obtain ⟨hl, ht⟩ := h
          obtain ⟨k, hk1, hk2, hk3⟩ := ih (s + 1) (t + 1) l' t'' hrec
          rw [ht] at hk3
          refine ⟨k, by omega, ?_, hk3⟩
          rw [← hl, hk2, List.drop_eq_getElem_cons hcond.1]
          have hms : k - s = (k - (s + 1)) + 1 := by omega
          rw [hms, List.take_succ_cons, List.map_cons]
          simp [List.get_eq_getElem]
      | full =>
        rw [hor] at h
        exact ih s (t + 1) l t' h
    · rw [dif_neg hcond] at h
      cases h
      refine ⟨s, le_refl s, by simp, ?_⟩
      intro hterm hlt
      exact hcond ⟨hlt, hterm⟩

/-- C5: the feeder never drops work — on a full-queue timeout it retries
the same item, so the enqueued work items always form a prefix of the
archive's items, in archive order, each enqueued exactly once.  In an
uncancelled run every archive item is enqueued and exactly one `'STOP'`
sentinel per worker follows; if the flag cancels the loop before all
items were submitted, no sentinel is enqueued. -/
theorem claim_c5_feeder_never_drops (names : List WorkItem) (nProc : Nat)
    (oracle : Nat → PutObs) (term : Nat → Bool) (fuel : Nat) (out : List QItem)
    (h : feedWorkers names nProc oracle term fuel = some out) :
    ∃ k, k ≤ names.length ∧
      (out = (names.take k).map QItem.work ++ List.replicate nProc QItem.stop ∨
        out = (names.take k).map QItem.work) ∧
      (k < names.length → out = (names.take k).map QItem.work) ∧
      ((∀ u, term u = false) →
        out = names.map QItem.work ++ List.replicate nProc QItem.stop) := by
  rw [feedWorkers] at h
  cases hrec : feedLoop names oracle term fuel 0 0 with
  | none => rw [hrec] at h; exact absurd h (by simp)
  | some p =>
    obtain ⟨l, t'⟩ := p
    rw [hrec] at h
    simp only [Option.map_some'] at h
    obtain ⟨k, _, hk2, hk3⟩ := feedLoop_spec names oracle term fuel 0 0 l t' hrec
    simp only [List.drop_zero, Nat.sub_zero] at hk2
    cases h
    cases hterm : term t' with
    | false =>
      have hklen : names.length ≤ k := Nat.le_of_not_lt (hk3 hterm)
      have htake : names.take k = names := List.take_of_length_le hklen
      refine ⟨names.length, le_refl _, ?_, ?_, ?_⟩
      · rw [if_pos rfl, hk2, htake, List.take_length]
        exact Or.inl rfl
      · intro hlt; omega
      · intro _
        rw [if_pos rfl, hk2, htake]
    | true =>
      simp only [if_neg (show ¬(true = false) by decide), List.append_nil]
      by_cases hkl : k ≤ names.length
      · refine ⟨k, hkl, Or.inr hk2, fun _ => hk2, fun hall => ?_⟩
        exact absurd (hall t') (by rw [hterm]; simp)
      · have htake : names.take k = names := List.take_of_length_le (by omega)
        refine ⟨names.length, le_refl _, ?_, ?_, ?_⟩
        · rw [hk2, htake, List.take_length]; exact Or.inr rfl
        · intro _; rw [hk2, htake, List.take_length]
        · intro hall; exact absurd (hall t') (by rw [hterm]; simp)

/-- An environment whose first put attempt times out with `queue.Full`
and whose later attempts succeed. -/
def cOracle : Nat → PutObs := fun t => if t = 0 then PutObs.full else PutObs.ok

/-- An uncancelled run: the flag reads false at every check. -/
def cTermFalse : Nat → Bool := fun _ => false

theorem claim_c5_feeder_never_drops_witness :
    feedWorkers [cItem] 1 cOracle cTermFalse 4 =
      some [QItem.work cItem, QItem.stop] ∧
    ∃ k, k ≤ [cItem].length ∧
      ([QItem.work cItem, QItem.stop] =
          ([cItem].take k).map QItem.work ++ List.replicate 1 QItem.stop ∨
        [QItem.work cItem, QItem.stop] = ([cItem].take k).map QItem.work) ∧
      (k < [cItem].length →
        [QItem.work cItem, QItem.stop] = ([cItem].take k).map QItem.work) ∧
      ((∀ u, cTermFalse u = false) →
        [QItem.work cItem, QItem.stop] =
          [cItem].map QItem.work ++ List.replicate 1 QItem.stop) :=
  ⟨by decide, claim_c5_feeder_never_drops [cItem] 1 cOracle cTermFalse 4
    [QItem.work cItem, QItem.stop] (by decide)⟩

/-! ### PSF convolution (`ModelCPU.convolve`, lines 41-50) -/

/-- The model cube restricted to its three leading axes: a 2-D image for
every triple of leading indices (the code comment at line 44 shows the
layout `(10, 13, 21, 128, 128)`: three leading axes, two image axes). -/
def Cube (e t r : Nat) : Type := Fin e → Fin t → Fin r → Img

theorem mul3_pos {e t r : Nat} (h : 0 < e * t * r) : 0 < e ∧ 0 < t ∧ 0 < r := by
  refine ⟨?_, ?_, ?_⟩ <;> by_contra hz <;> push_neg at hz <;>
    rw [Nat.le_zero] at hz <;> subst hz <;> simp at h

/-- Row-major flat index of `(i, j, k)` in leading shape `(e, t, r)`, as
`np.reshape` lays slices out. -/
def flatIdx {e t r : Nat} (i : Fin e) (j : Fin t) (k : Fin r) : Fin (e * t * r) :=
  ⟨(i.val * t + j.val) * r + k.val, by
    have hi := i.isLt
    have hj := j.isLt
    have hk := k.isLt
    calc (i.val * t + j.val) * r + k.val
        < (i.val * t + j.val + 1) * r := by
          have : (i.val * t + j.val + 1) * r = (i.val * t + j.val) * r + r := by ring
          omega
      _ ≤ (e * t) * r := by
          apply Nat.mul_le_mul_right
          calc i.val * t + j.val + 1 ≤ i.val * t + t := by omega
            _ = (i.val + 1) * t := by ring
            _ ≤ e * t := Nat.mul_le_mul_right t hi⟩

/-- Leading index recovered from a row-major flat index. -/
def unE {e t r : Nat} (n : Fin (e * t * r)) : Fin e :=
  ⟨n.val / (t * r), by
    have hpos : 0 < e * t * r := Nat.lt_of_le_of_lt (Nat.zero_le _) n.isLt
    obtain ⟨he, ht, hr⟩ := mul3_pos hpos
    rw [Nat.div_lt_iff_lt_mul (Nat.mul_pos ht hr), ← Nat.mul_assoc]
    exact n.isLt⟩

/-- Middle index recovered from a row-major flat index. -/
def unT {e t r : Nat} (n : Fin (e * t * r)) : Fin t :=
  ⟨(n.val % (t * r)) / r, by
    have hpos : 0 < e * t * r := Nat.lt_of_le_of_lt (Nat.zero_le _) n.isLt
    obtain ⟨he, ht, hr⟩ := mul3_pos hpos
    rw [Nat.div_lt_iff_lt_mul hr]
    exact Nat.mod_lt _ (Nat.mul_pos ht hr)⟩

/-- Trailing index recovered from a row-major flat index. -/
def unR {e t r : Nat} (n : Fin (e * t * r)) : Fin r :=
  ⟨n.val % r, by
    have hpos : 0 < e * t * r := Nat.lt_of_le_of_lt (Nat.zero_le _) n.isLt
    obtain ⟨he, ht, hr⟩ := mul3_pos hpos
    exact Nat.mod_lt _ hr⟩

/-- `self.models.reshape(flatten_shape)` (lines 44-45): the cube as a
flat list of 2-D slices, row-major, batching the three leading axes. -/
def flatSlices {e t r : Nat} (m : Cube e t r) : List Img :=
  (List.finRange (e * t * r)).map (fun n => m (unE n) (unT n) (unR n))

/-- `pool.map(convolve, ...)` (line 48): same-size 2-D convolution of
every slice with the PSF, independently; `conv2d` models
`partial(fftconvolve, in2=psf, mode='same', axes=(-2, -1))` (scipy,
external). -/
def convolvedSlices (conv2d : Img → Img → Img) {e t r : Nat}
    (m : Cube e t r) (psf : Img) : List Img :=
  (flatSlices m).map (fun img => conv2d img psf)

/-- `np.array(list(convolved)).reshape(self.models.shape)` (line 49):
the convolved slices viewed again in the cube layout. -/
def convolveCube (conv2d : Img → Img → Img) {e t r : Nat}
    (m : Cube e t r) (psf : Img) : Cube e t r :=
  fun i j k => (convolvedSlices conv2d m psf).getD (flatIdx i j k).val []

theorem unE_flatIdx {e t r : Nat} (i : Fin e) (j : Fin t) (k : Fin r) :
    unE (flatIdx i j k) = i := by
  apply Fin.ext
  show ((i.val * t + j.val) * r + k.val) / (t * r) = i.val
  have ht : 0 < t := Nat.lt_of_le_of_lt (Nat.zero_le _) j.isLt
  have hr : 0 < r := Nat.lt_of_le_of_lt (Nat.zero_le _) k.isLt
  have hrw : (i.val * t + j.val) * r + k.val = (t * r) * i.val + (j.val * r + k.val) := by
    ring
  have hlt : j.val * r + k.val < t * r := by
    have h1 : j.val * r + r ≤ t * r := by
      have : (j.val + 1) * r ≤ t * r := Nat.mul_le_mul_right r j.isLt
      calc j.val * r + r = (j.val + 1) * r := by ring
        _ ≤ t * r := this
    omega
  rw [hrw, Nat.mul_add_div (Nat.mul_pos ht hr), Nat.div_eq_of_lt hlt]
  omega

theorem unT_flatIdx {e t r : Nat} (i : Fin e) (j : Fin t) (k : Fin r) :
    unT (flatIdx i j k) = j := by
  apply Fin.ext
  show (((i.val * t + j.val) * r + k.val) % (t * r)) / r = j.val
  have ht : 0 < t := Nat.lt_of_le_of_lt (Nat.zero_le _) j.isLt
  have hr : 0 < r := Nat.lt_of_le_of_lt (Nat.zero_le _) k.isLt
  have hrw : (i.val * t + j.val) * r + k.val = (t * r) * i.val + (j.val * r + k.val) := by
    ring
  have hlt : j.val * r + k.val < t * r := by
    have h1 : (j.val + 1) * r ≤ t * r := Nat.mul_le_mul_right r j.isLt
    have h2 : (j.val + 1) * r = j.val * r + r := by ring
    omega
  rw [hrw, Nat.mul_add_mod, Nat.mod_eq_of_lt hlt]
  have hrw2 : j.val * r + k.val = r * j.val + k.val := by ring
  rw [hrw2, Nat.mul_add_div hr, Nat.div_eq_of_lt k.isLt]
  omega

theorem unR_flatIdx {e t r : Nat} (i : Fin e) (j : Fin t) (k : Fin r) :
    unR (flatIdx i j k) = k := by
  apply Fin.ext
  show ((i.val * t + j.val) * r + k.val) % r = k.val
  have hrw : (i.val * t + j.val) * r + k.val = r * (i.val * t + j.val) + k.val := by
    ring
  rw [hrw, Nat.mul_add_mod, Nat.mod_eq_of_lt k.isLt]

theorem convolveCube_apply (conv2d : Img → Img → Img) {e t r : Nat}
    (m : Cube e t r) (psf : Img) (i : Fin e) (j : Fin t) (k : Fin r) :
    convolveCube conv2d m psf i j k = conv2d (m i j k) psf := by
  have hlen : (convolvedSlices conv2d m psf).length = e * t * r := by
    simp [convolvedSlices, flatSlices]
  have hidx : (flatIdx i j k).val < (convolvedSlices conv2d m psf).length := by
    rw [hlen]; exact (flatIdx i j k).isLt
  rw [convolveCube, List.getD_eq_getElem _ _ hidx]
  simp only [convolvedSlices, flatSlices, List.getElem_map, List.getElem_finRange]
  have hcast : (Fin.cast (List.length_finRange (e * t * r))
      ⟨(flatIdx i j k).val, by simp⟩ :
      Fin (e * t * r)) = flatIdx i j k := by
    apply Fin.ext; rfl
  rw [hcast, unE_flatIdx, unT_flatIdx, unR_flatIdx]

/-! ### The filesystem model and the per-file / per-directory drivers
(`fit_file` lines 147-174, `fit_dir` lines 176-195) -/

/-- The filesystem state the engine writes: output score archives (path
to ordered `(object id, score cube)` entries) and persisted summary
catalogs. Mosaic files are accounted inside `CollectSt`. -/
structure FS where
  archives : List Char → Option (List (List Char × ScoreCube))
  catalogs : List Char → Option (List (Option Params))

/-- `os.remove(output_file)` guarded by `os.path.isfile` (`fit_dir`
lines 187-188): afterwards no archive exists at the path. -/
def eraseArchive (fs : FS) (p : List Char) : FS :=
  { fs with archives := fun q => if q = p then none else fs.archives q }

/-- The output-archive effect of one per-file job: `get_output` opens
`output_file` in append mode only when a successful result arrives
(line 108), creating the file on demand — no successful result, no
file. -/
def writeArchive (fs : FS) (p : List Char) (entries : List (List Char × ScoreCube)) : FS :=
  if entries = [] then fs
  else { fs with archives := fun q =>
          if q = p then some ((fs.archives p).getD [] ++ entries) else fs.archives q }

/-- `table.save(cats_dir)` (line 168). Modelled from the spec:
`Summary.save` (`DRE/core/results.py`) is not under `src/`; the spec
says the summary table is persisted once at the end of a per-file
job. -/
def writeCatalog (fs : FS) (p : List Char) (tbl : List (Option Params)) : FS :=
  { fs with catalogs := fun q => if q = p then some tbl else fs.catalogs q }

/-- The fitting phase of `fit_file` (lines 163-168) under the canonical
in-submission-order completion schedule: every archive item is processed
by the worker body and collected; then the summary table is persisted.
(The spec states completion order is unordered across objects; no claim
proved against this definition depends on the order.) -/
def runJobFS (fitK : Img → Mask → Img → ScoreCube) (gp : ScoreCube → BaseParams)
    (mm : Img → Mask → Nat × Nat × Nat → Img) (saveM : Bool)
    (items : List WorkItem) (outPath catPath : List Char) (fs : FS) : FS :=
  let results := items.filterMap (processItem fitK gp mm saveM)
  let col := results.foldl (collectStep saveM) ⟨[], [], [], 0⟩
  writeCatalog (writeArchive fs outPath col.archive) catPath col.table

/-- `fit_file` (lines 147-174): convolve the model cube with the file's
PSF, then run the job. `psf? = none` models `get_psf` raising
`FileNotFoundError` (missing PSF file), caught at line 158: `fit_file`
prints a warning and returns before any worker, queue, archive or
catalog activity. Otherwise every worker fits against the fully
convolved cube (`dre_fit` reads `self.convolved_models`, republished
before `start_processes` is called). -/
def fitFileFS (conv2d : Img → Img → Img) {e t r : Nat}
    (dre_fit : Cube e t r → Img → Mask → Img → ScoreCube)
    (gp : ScoreCube → BaseParams) (mm : Img → Mask → Nat × Nat × Nat → Img)
    (saveM : Bool) (models : Cube e t r) (psf? : Option Img)
    (items : List WorkItem) (outPath catPath : List Char) (fs : FS) : FS :=
  match psf? with
  | none => fs
  | some psf =>
      runJobFS (dre_fit (convolveCube conv2d models psf)) gp mm saveM items outPath catPath fs

/-- Python `str.replace(pat, '')`: remove every left-to-right,
non-overlapping occurrence of `pat`. -/
def stripAll (pat : List Char) : List Char → List Char
  | [] => []
  | c :: rest =>
    if pat.isPrefixOf (c :: rest) ∧ pat ≠ [] then
      stripAll pat (List.drop (pat.length - 1) rest)
    else c :: stripAll pat rest
termination_by l => l.length
decreasing_by
  · simp only [List.length_drop, List.length_cons]; omega
  · simp only [List.length_cons]; omega

/-- `os.path.basename`: the part after the last `'/'`. -/
def baseNameOf (l : List Char) : List Char := (splitOnChar '/' l).getLastD l

/-- `os.path.join` for a relative second component. -/
def joinPath (a b : List Char) : List Char := a ++ '/' :: b

/-- `name = os.path.basename(filename).replace('_cuts.h5', '')`
(`fit_dir` line 184). -/
def tileName (filename : List Char) : List Char :=
  stripAll "_cuts.h5".data (baseNameOf filename)

/-- `output_file = os.path.join(output_dir, f"{name}_chi.h5")` (line 185). -/
def chiPath (outputDir filename : List Char) : List Char :=
  joinPath outputDir (tileName filename ++ "_chi.h5".data)

/-- `psf = os.path.join(psf_dir, f"{name}.psf")` (line 186). -/
def psfFilePath (psfDir filename : List Char) : List Char :=
  joinPath psfDir (tileName filename ++ ".psf".data)

/-- The per-run environment of `fit_dir`: the four directory arguments,
`psfFiles` modelling `get_psf` on disk (`none` = missing file, i.e.
`FileNotFoundError`), `itemsOf` modelling the contents of each input
cutout archive, the shared model cube and the mosaic switch. -/
structure DirEnv (e t r : Nat) where
  inputDir : List Char
  outputDir : List Char
  psfDir : List Char
  catsDir : List Char
  psfFiles : List Char → Option Img
  itemsOf : List Char → List WorkItem
  models : Cube e t r
  saveM : Bool

/-- One iteration of the `fit_dir` loop (lines 182-191): derive the tile
name and paths, delete any pre-existing output archive, then run
`fit_file`. -/
def fitDirStep (conv2d : Img → Img → Img) {e t r : Nat}
    (dre_fit : Cube e t r → Img → Mask → Img → ScoreCube)
    (gp : ScoreCube → BaseParams) (mm : Img → Mask → Nat × Nat × Nat → Img)
    (env : DirEnv e t r) (fs : FS) (filename : List Char) : FS :=
  fitFileFS conv2d dre_fit gp mm env.saveM env.models
    (env.psfFiles (psfFilePath env.psfDir filename))
    (env.itemsOf (joinPath env.inputDir filename))
    (chiPath env.outputDir filename)
    (joinPath env.catsDir (tileName filename))
    (eraseArchive fs (chiPath env.outputDir filename))

/-- The `fit_dir` loop over the sorted directory listing (`files` is the
listing in the order `sorted` yields it); `term i` is the value of the
cancellation flag checked after file `i` (line 192): once set, the
remaining files are not processed. -/
def fitDirLoop (conv2d : Img → Img → Img) {e t r : Nat}
    (dre_fit : Cube e t r → Img → Mask → Img → ScoreCube)
    (gp : ScoreCube → BaseParams) (mm : Img → Mask → Nat × Nat × Nat → Img)
    (env : DirEnv e t r) (term : Nat → Bool) :
    FS → List (List Char) → Nat → FS
  | fs, [], _ => fs
  | fs, f :: rest, i =>
    let fs' := fitDirStep conv2d dre_fit gp mm env fs f
    if term i then fs' else fitDirLoop conv2d dre_fit gp mm env term fs' rest (i + 1)

/-- The archive contents a single per-file job itself produces at its
output path: `none` when the PSF is missing or no object fit
successfully (the archive file is then never created), otherwise
exactly this run's entries. -/
def runArchive (conv2d : Img → Img → Img) {e t r : Nat}
    (dre_fit : Cube e t r → Img → Mask → Img → ScoreCube)
    (gp : ScoreCube → BaseParams) (mm : Img → Mask → Nat × Nat × Nat → Img)
    (env : DirEnv e t r) (filename : List Char) :
    Option (List (List Char × ScoreCube)) :=
  match env.psfFiles (psfFilePath env.psfDir filename) with
  | none => none
  | some psf =>
    let items := env.itemsOf (joinPath env.inputDir filename)
    let results := items.filterMap
      (processItem (dre_fit (convolveCube conv2d env.models psf)) gp mm env.saveM)
    let entries := (results.foldl (collectStep env.saveM) ⟨[], [], [], 0⟩).archive
    if entries = [] then none else some entries

/-- C8: `ModelCPU.convolve` flattens the model cube's three leading axes
into one batch axis, computes a same-size 2-D convolution of every
slice with the PSF independently, and reshapes back, so the convolved
cube has exactly the model cube's shape and its `(i, j, k)` slice is
the convolution of the model's `(i, j, k)` slice; moreover `fit_file`
runs the whole per-file job against this fully convolved cube, which is
in place before any worker process is started. -/
theorem claim_c8_convolve_flatten_reshape (conv2d : Img → Img → Img) {e t r : Nat}
    (dre_fit : Cube e t r → Img → Mask → Img → ScoreCube)
    (gp : ScoreCube → BaseParams) (mm : Img → Mask → Nat × Nat × Nat → Img)
    (saveM : Bool) (m : Cube e t r) (psf : Img) :
    (∀ (i : Fin e) (j : Fin t) (k : Fin r),
      convolveCube conv2d m psf i j k = conv2d (m i j k) psf) ∧
    (∀ (items : List WorkItem) (outPath catPath : List Char) (fs : FS),
      fitFileFS conv2d dre_fit gp mm saveM m (some psf) items outPath catPath fs =
        runJobFS (dre_fit (convolveCube conv2d m psf)) gp mm saveM items outPath catPath fs) :=
  ⟨convolveCube_apply conv2d m psf, fun _ _ _ _ => rfl⟩

/-- C4: when the PSF file for an input file is missing, the per-file job
fails during convolution (`get_psf` raises `FileNotFoundError`),
`fit_file` catches it and returns before the fitting phase ever starts:
the per-file step leaves the filesystem exactly as `fit_dir`'s
pre-deletion left it (no archive entries and no catalog for that file),
and the directory loop then continues with the next input file instead
of aborting the run. -/
theorem claim_c4_missing_psf_skips_file (conv2d : Img → Img → Img) {e t r : Nat}
    (dre_fit : Cube e t r → Img → Mask → Img → ScoreCube)
    (gp : ScoreCube → BaseParams) (mm : Img → Mask → Nat × Nat × Nat → Img)
    (env : DirEnv e t r) (f : List Char)
    (h : env.psfFiles (psfFilePath env.psfDir f) = none) :
    (∀ fs, fitDirStep conv2d dre_fit gp mm env fs f =
      eraseArchive fs (chiPath env.outputDir f)) ∧
    (∀ (term : Nat → Bool) fs rest i, term i = false →
      fitDirLoop conv2d dre_fit gp mm env term fs (f :: rest) i =
        fitDirLoop conv2d dre_fit gp mm env term
          (eraseArchive fs (chiPath env.outputDir f)) rest (i + 1)) := by
  have hstep : ∀ fs, fitDirStep conv2d dre_fit gp mm env fs f =
      eraseArchive fs (chiPath env.outputDir f) := by
    intro fs
    rw [fitDirStep, h]
    rfl
  refine ⟨hstep, ?_⟩
  intro termF fs rest i hterm
  rw [fitDirLoop, hstep fs]
  simp [hterm]

theorem fitDirStep_archives_self (conv2d : Img → Img → Img) {e t r : Nat}
    (dre_fit : Cube e t r → Img → Mask → Img → ScoreCube)
    (gp : ScoreCube → BaseParams) (mm : Img → Mask → Nat × Nat × Nat → Img)
    (env : DirEnv e t r) (fs : FS) (f : List Char) :
    (fitDirStep conv2d dre_fit gp mm env fs f).archives (chiPath env.outputDir f) =
      runArchive conv2d dre_fit gp mm env f := by
  rw [fitDirStep, runArchive]
  cases hp : env.psfFiles (psfFilePath env.psfDir f) with
  | none => simp [fitFileFS, eraseArchive]
  | some psf =>
    simp only [fitFileFS, runJobFS, writeCatalog, writeArchive]
    by_cases he : (((env.itemsOf (joinPath env.inputDir f)).filterMap
        (processItem (dre_fit (convolveCube conv2d env.models psf)) gp mm
          env.saveM)).foldl (collectStep env.saveM) ⟨[], [], [], 0⟩).archive = []
    · rw [if_pos he, if_pos he]
      simp [eraseArchive]
    · rw [if_neg he, if_neg he]
      simp [eraseArchive]

theorem fitDirStep_archives_other (conv2d : Img → Img → Img) {e t r : Nat}
    (dre_fit : Cube e t r → Img → Mask → Img → ScoreCube)
    (gp : ScoreCube → BaseParams) (mm : Img → Mask → Nat × Nat × Nat → Img)
    (env : DirEnv e t r) (fs : FS) (f q : List Char)
    (hq : q ≠ chiPath env.outputDir f) :
    (fitDirStep conv2d dre_fit gp mm env fs f).archives q = fs.archives q := by
  rw [fitDirStep]
  cases hp : env.psfFiles (psfFilePath env.psfDir f) with
  | none => simp [fitFileFS, eraseArchive, hq]
  | some psf =>
    simp only [fitFileFS, runJobFS, writeCatalog, writeArchive]
    by_cases he : (((env.itemsOf (joinPath env.inputDir f)).filterMap
        (processItem (dre_fit (convolveCube conv2d env.models psf)) gp mm
          env.saveM)).foldl (collectStep env.saveM) ⟨[], [], [], 0⟩).archive = []
    · rw [if_pos he]
      simp [eraseArchive, hq]
    · rw [if_neg he]
      simp [eraseArchive, hq]

theorem fitDirLoop_archives_other (conv2d : Img → Img → Img) {e t r : Nat}
    (dre_fit : Cube e t r → Img → Mask → Img → ScoreCube)
    (gp : ScoreCube → BaseParams) (mm : Img → Mask → Nat × Nat × Nat → Img)
    (env : DirEnv e t r) (term : Nat → Bool) (q : List Char) :
    ∀ (l : List (List Char)), (∀ g ∈ l, q ≠ chiPath env.outputDir g) →
      ∀ fs i, (fitDirLoop conv2d dre_fit gp mm env term fs l i).archives q =
        fs.archives q := by
  intro l
  induction l with
  | nil => intro _ fs i; rfl
  | cons g rest ih =>
    intro hall fs i
    rw [fitDirLoop]
    have hg : q ≠ chiPath env.outputDir g := hall g (by simp)
    have hrest : ∀ x ∈ rest, q ≠ chiPath env.outputDir x :=
      fun x hx => hall x (by simp [hx])
    by_cases ht : term i
    · rw [if_pos ht]
      exact fitDirStep_archives_other conv2d dre_fit gp mm env fs g q hg
    · rw [if_neg ht, ih hrest]
      exact fitDirStep_archives_other conv2d dre_fit gp mm env fs g q hg

theorem fitDirLoop_append (conv2d : Img → Img → Img) {e t r : Nat}
    (dre_fit : Cube e t r → Img → Mask → Img → ScoreCube)
    (gp : ScoreCube → BaseParams) (mm : Img → Mask → Nat × Nat × Nat → Img)
    (env : DirEnv e t r) (term : Nat → Bool) (hterm : ∀ u, term u = false) :
    ∀ (l1 l2 : List (List Char)) (fs : FS) (i : Nat),
      fitDirLoop conv2d dre_fit gp mm env term fs (l1 ++ l2) i =
        fitDirLoop conv2d dre_fit gp mm env term
          (fitDirLoop conv2d dre_fit gp mm env term fs l1 i) l2 (i + l1.length) := by
  intro l1
  induction l1 with
  | nil => intro l2 fs i; rfl
  | cons g rest ih =>
    intro l2 fs i
    rw [List.cons_append, fitDirLoop, fitDirLoop]
    simp only [hterm i, Bool.false_eq_true, if_false]
    rw [ih l2 _ (i + 1)]
    have : i + 1 + rest.length = i + (g :: rest).length := by simp; omega
    rw [this]

/-- C10: `fit_dir` deletes any pre-existing output archive at the
derived output path before the per-file job starts, so the archive a
per-file step leaves at its output path is exactly what the current
run's job wrote there (`none`, or only this run's entries), independent
of the prior filesystem contents; and in an uncancelled full run this
still holds at the end for every processed file whose output path is
not reused by a later file. -/
theorem claim_c10_output_archive_fresh (conv2d : Img → Img → Img) {e t r : Nat}
    (dre_fit : Cube e t r → Img → Mask → Img → ScoreCube)
    (gp : ScoreCube → BaseParams) (mm : Img → Mask → Nat × Nat × Nat → Img)
    (env : DirEnv e t r) (term : Nat → Bool) (f : List Char) :
    (∀ fs, (fitDirStep conv2d dre_fit gp mm env fs f).archives
        (chiPath env.outputDir f) = runArchive conv2d dre_fit gp mm env f) ∧
    (∀ (pre post : List (List Char)) (fs : FS) (i : Nat), (∀ u, term u = false) →
      (∀ g ∈ post, chiPath env.outputDir g ≠ chiPath env.outputDir f) →
      (fitDirLoop conv2d dre_fit gp mm env term fs (pre ++ f :: post) i).archives
          (chiPath env.outputDir f) = runArchive conv2d dre_fit gp mm env f) := by
  refine ⟨fun fs => fitDirStep_archives_self conv2d dre_fit gp mm env fs f, ?_⟩
  intro pre post fs i hterm hdist
  rw [fitDirLoop_append conv2d dre_fit gp mm env term hterm pre (f :: post) fs i,
    fitDirLoop]
  simp only [hterm (i + pre.length), Bool.false_eq_true, if_false]
  rw [fitDirLoop_archives_other conv2d dre_fit gp mm env term _ post
    (fun g hg => (hdist g hg).symm) _ _]
  exact fitDirStep_archives_self conv2d dre_fit gp mm env _ f

/-! ### Concrete environments for the driver witnesses -/

/-- A trivial stand-in for `fftconvolve(..., mode='same')`. -/
def cConv : Img → Img → Img := fun a _ => a

/-- A one-slice model cube. -/
def cCube : Cube 1 1 1 := fun _ _ _ => []

/-- A fitting kernel whose score cube is all NaN for every object. -/
def cDre : Cube 1 1 1 → Img → Mask → Img → ScoreCube := fun _ _ _ _ => [none]

/-- An empty filesystem. -/
def cFS0 : FS := ⟨fun _ => none, fun _ => none⟩

/-- A run environment whose PSF directory is empty (every PSF missing). -/
def cEnvNoPsf : DirEnv 1 1 1 :=
  ⟨"Cuts".data, "Chi".data, "PSF".data, "Sextracted".data,
    fun _ => none, fun _ => [], cCube, false⟩

/-- A run environment with a PSF present and one archive item per file. -/
def cEnvPsf : DirEnv 1 1 1 :=
  ⟨"Cuts".data, "Chi".data, "PSF".data, "Sextracted".data,
    fun _ => some [], fun _ => [cItem], cCube, false⟩

theorem claim_c4_missing_psf_skips_file_witness :
    cEnvNoPsf.psfFiles (psfFilePath cEnvNoPsf.psfDir "t_cuts.h5".data) = none ∧
    ((∀ fs, fitDirStep cConv cDre cGp cMm cEnvNoPsf fs "t_cuts.h5".data =
        eraseArchive fs (chiPath cEnvNoPsf.outputDir "t_cuts.h5".data)) ∧
      (∀ (term : Nat → Bool) fs rest i, term i = false →
        fitDirLoop cConv cDre cGp cMm cEnvNoPsf term fs ("t_cuts.h5".data :: rest) i =
          fitDirLoop cConv cDre cGp cMm cEnvNoPsf term
            (eraseArchive fs (chiPath cEnvNoPsf.outputDir "t_cuts.h5".data)) rest (i + 1))) :=
  ⟨rfl, claim_c4_missing_psf_skips_file cConv cDre cGp cMm cEnvNoPsf "t_cuts.h5".data rfl⟩

theorem claim_c10_output_archive_fresh_witness :
    ((∀ u, cTermFalse u = false) ∧
      (∀ g ∈ ([] : List (List Char)),
        chiPath cEnvPsf.outputDir g ≠ chiPath cEnvPsf.outputDir "t_cuts.h5".data)) ∧
    (fitDirLoop cConv cDre cGp cMm cEnvPsf cTermFalse cFS0
        ([] ++ "t_cuts.h5".data :: []) 0).archives
      (chiPath cEnvPsf.outputDir "t_cuts.h5".data) =
      runArchive cConv cDre cGp cMm cEnvPsf "t_cuts.h5".data :=
  ⟨⟨fun _ => rfl, by simp⟩,
    (claim_c10_output_archive_fresh cConv cDre cGp cMm cEnvPsf cTermFalse
      "t_cuts.h5".data).2 [] [] cFS0 0 (fun _ => rfl) (by simp)⟩

/-! ### The interleaved run of one per-file job
(`Parallelize.start_processes` / `stop_processes` with the feeder
thread, the worker processes and the collector thread;
`dre_cpu.py` lines 53-145)

The job is a labelled transition system over the joint state of the
shared cancellation flag (`mp.Event`), the bounded input queue, the
unbounded output queue, the feeder, the workers and the collector.
One transition is one atomic loop iteration of one component (one
check-and-put of the feeder, one get-process-put-ack of a worker, one
get-and-handle of the collector). `Act.sig` labels transitions caused
by external signal delivery (`KeyboardInterrupt` in a worker, or
`abort()` setting the flag); `Act.int` labels the components' own
steps. -/

/-- Status of one worker process: in its pull loop; exited after
dequeuing the `'STOP'` sentinel or via its `KeyboardInterrupt` handler;
or dead of the uncaught `ValueError` from an unparsable object id. -/
inductive WStatus
  | running
  | stopped
  | crashed
deriving DecidableEq

/-- The feeder thread's control point: inside the submission loop
(lines 87-96); at the post-loop flag check (line 97); inside the
sentinel loop (lines 98-99); finished. -/
inductive FPhase
  | feeding
  | checking
  | stopping
  | done
deriving DecidableEq

/-- Transition label: a component's own step, or an external signal. -/
inductive Act
  | int
  | sig
deriving DecidableEq

/-- Joint state of one per-file job. `acks` counts the
`input_queue.task_done()` calls (line 81). -/
structure SysState where
  terminate : Bool
  inQ : List QItem
  outQ : List FitResult
  fed : Nat
  phase : FPhase
  sentinels : Nat
  workers : List WStatus
  collector : CollectSt
  collectorDone : Bool
  acks : Nat
deriving DecidableEq

/-- The state right after `start_processes` (line 122): flag clear,
queues empty, feeder at its loop head, `nProc` running workers,
collector at its loop head. -/
def initState (nProc : Nat) : SysState :=
  ⟨false, [], [], 0, FPhase.feeding, 0, List.replicate nProc WStatus.running,
    ⟨[], [], [], 0⟩, false, 0⟩

section JobRun

variable (names : List WorkItem) (nProc maxSize : Nat)
variable (fitK : Img → Mask → Img → ScoreCube) (gp : ScoreCube → BaseParams)
variable (mm : Img → Mask → Nat × Nat × Nat → Img) (saveM : Bool)

/-- One interleaved transition of the job. Feeder steps follow
`feed_workers` (lines 85-99): a put with a 2-second timeout that
re-checks the flag each iteration, sentinels emitted only if the flag
is clear at the post-loop check, sentinel puts blocking without
timeout (enabled only when the bounded queue has room). Worker steps
follow `cpu_worker` (lines 64-83): a blocking `get` with no timeout —
a worker has no enabled step on an empty queue and never reads the
flag; it pushes one result and acknowledges once per work item, stops
only on the sentinel, and an interrupt signal (label `sig`) makes it
set the flag and exit. Collector steps follow `get_output`
(lines 101-120): a get with a 2-second timeout, re-checking
`completed < n_tasks and not terminate` each iteration. `cancel`
models `abort()` (line 143). -/
inductive Step : Act → SysState → SysState → Prop
  | feed_put (s : SysState) (h1 : s.phase = FPhase.feeding) (h2 : s.terminate = false)
      (h3 : s.fed < names.length) (h4 : s.inQ.length < maxSize) :
      Step Act.int s { s with inQ := s.inQ ++ [QItem.work (names.get ⟨s.fed, h3⟩)],
                              fed := s.fed + 1 }
  | feed_full (s : SysState) (h1 : s.phase = FPhase.feeding) (h2 : s.terminate = false)
      (h3 : s.fed < names.length) (h4 : maxSize ≤ s.inQ.length) :
      Step Act.int s s
  | feed_exit (s : SysState) (h1 : s.phase = FPhase.feeding)
      (h2 : ¬(s.fed < names.length ∧ s.terminate = false)) :
      Step Act.int s { s with phase := FPhase.checking }
  | feed_check_cancelled (s : SysState) (h1 : s.phase = FPhase.checking)
      (h2 : s.terminate = true) :
      Step Act.int s { s with phase := FPhase.done }
  | feed_check_clear (s : SysState) (h1 : s.phase = FPhase.checking)
      (h2 : s.terminate = false) :
      Step Act.int s { s with phase := FPhase.stopping }
  | feed_sentinel (s : SysState) (h1 : s.phase = FPhase.stopping)
      (h2 : s.sentinels < nProc) (h3 : s.inQ.length < maxSize) :
      Step Act.int s { s with inQ := s.inQ ++ [QItem.stop],
                              sentinels := s.sentinels + 1 }
  | feed_stop_done (s : SysState) (h1 : s.phase = FPhase.stopping)
      (h2 : nProc ≤ s.sentinels) :
      Step Act.int s { s with phase := FPhase.done }
  | worker_stop (s : SysState) (i : Nat) (rest : List QItem)
      (h1 : s.workers.get? i = some WStatus.running)
      (h2 : s.inQ = QItem.stop :: rest) :
      Step Act.int s { s with inQ := rest,
                              workers := s.workers.set i WStatus.stopped }
  | worker_work (s : SysState) (i : Nat) (w : WorkItem) (rest : List QItem)
      (r : FitResult) (h1 : s.workers.get? i = some WStatus.running)
      (h2 : s.inQ = QItem.work w :: rest)
      (h3 : processItem fitK gp mm saveM w = some r) :
      Step Act.int s { s with inQ := rest, outQ := s.outQ ++ [r],
                              acks := s.acks + 1 }
  | worker_crash (s : SysState) (i : Nat) (w : WorkItem) (rest : List QItem)
      (h1 : s.workers.get? i = some WStatus.running)
      (h2 : s.inQ = QItem.work w :: rest)
      (h3 : processItem fitK gp mm saveM w = none) :
      Step Act.int s { s with inQ := rest,
                              workers := s.workers.set i WStatus.crashed }
  | worker_interrupt (s : SysState) (i : Nat)
      (h1 : s.workers.get? i = some WStatus.running) :
      Step Act.sig s { s with terminate := true,
                              workers := s.workers.set i WStatus.stopped }
  | cancel (s : SysState) :
      Step Act.sig s { s with terminate := true }
  | collect_get (s : SysState) (r : FitResult) (rest : List FitResult)
      (h1 : s.collectorDone = false)
      (h2 : s.collector.completed < names.length)
      (h3 : s.terminate = false) (h4 : s.outQ = r :: rest) :
      Step Act.int s { s with outQ := rest,
                              collector := collectStep saveM s.collector r }
  | collect_empty (s : SysState) (h1 : s.collectorDone = false)
      (h2 : s.collector.completed < names.length)
      (h3 : s.terminate = false) (h4 : s.outQ = []) :
      Step Act.int s s
  | collect_exit (s : SysState) (h1 : s.collectorDone = false)
      (h2 : ¬(s.collector.completed < names.length ∧ s.terminate = false)) :
      Step Act.int s { s with collectorDone := true }

/-- Any transition, by a component or by an external signal. -/
def AnyStep (s s' : SysState) : Prop :=
  ∃ a, Step names nProc maxSize fitK gp mm saveM a s s'

/-- Reachability from the start of the per-file job. -/
def Reachable (s : SysState) : Prop :=
  Relation.ReflTransGen (AnyStep names nProc maxSize fitK gp mm saveM) (initState nProc) s

end JobRun

/-- Number of real work items in a queue snapshot. -/
def countWork (q : List QItem) : Nat := q.countP QItem.isWork

/-- Number of crashed workers. -/
def crashedCount (ws : List WStatus) : Nat :=
  ws.countP (fun x => decide (x = WStatus.crashed))

theorem countWork_append_work (q : List QItem) (w : WorkItem) :
    countWork (q ++ [QItem.work w]) = countWork q + 1 := by
  simp [countWork, List.countP_append, QItem.isWork]

theorem countWork_append_stop (q : List QItem) :
    countWork (q ++ [QItem.stop]) = countWork q := by
  simp [countWork, List.countP_append, QItem.isWork]

theorem countWork_cons_stop (q : List QItem) :
    countWork (QItem.stop :: q) = countWork q := by
  simp [countWork, List.countP_cons, QItem.isWork]

theorem countWork_cons_work (q : List QItem) (w : WorkItem) :
    countWork (QItem.work w :: q) = countWork q + 1 := by
  simp [countWork, List.countP_cons, QItem.isWork]

theorem countP_set_of_get (p : WStatus → Bool) :
    ∀ (l : List WStatus) (i : Nat) (a b : WStatus), l.get? i = some a →
      p a = false → (l.set i b).countP p =
        l.countP p + (if p b then 1 else 0) := by
  intro l
  induction l with
  | nil => intro i a b h _; simp at h
  | cons x xs ih =>
    intro i a b h hpa
    cases i with
    | zero =>
      simp only [List.get?_cons_zero, Option.some.injEq] at h
      subst h
      simp [List.set, List.countP_cons, hpa]
    | succ i =>
      simp only [List.get?_cons_succ] at h
      simp only [List.set, List.countP_cons]
      rw [ih i a b h hpa]
      omega

theorem crashedCount_replicate_running (n : Nat) :
    crashedCount (List.replicate n WStatus.running) = 0 := by
  induction n with
  | zero => rfl
  | succ n ih => simp [crashedCount, List.replicate_succ, List.countP_cons] at *

theorem crashedCount_set_stopped (l : List WStatus) (i : Nat)
    (h : l.get? i = some WStatus.running) :
    crashedCount (l.set i WStatus.stopped) = crashedCount l := by
  rw [crashedCount, crashedCount, countP_set_of_get _ _ _ _ _ h (by decide)]
  simp

theorem crashedCount_set_crashed (l : List WStatus) (i : Nat)
    (h : l.get? i = some WStatus.running) :
    crashedCount (l.set i WStatus.crashed) = crashedCount l + 1 := by
  rw [crashedCount, crashedCount, countP_set_of_get _ _ _ _ _ h (by decide)]
  simp

theorem collectStep_completed (saveM : Bool) (st : CollectSt) (r : FitResult) :
    (collectStep saveM st r).completed = st.completed + 1 := by
  rw [collectStep]
  by_cases hr : r.success <;> simp [hr]

section JobInv

variable (names : List WorkItem) (nProc maxSize : Nat)
variable (fitK : Img → Mask → Img → ScoreCube) (gp : ScoreCube → BaseParams)
variable (mm : Img → Mask → Nat × Nat × Nat → Img) (saveM : Bool)

/-- The inductive invariant of an uncancelled run: every submitted item
is still queued, acknowledged (with exactly one pushed-or-collected
result), or consumed by a crashed worker; the feeder never over-submits;
every acknowledgment is paired with exactly one result pushed to the
output queue and later collected; the collector's loop only exits once
it has handled one result per submitted task. -/
def Inv (s : SysState) : Prop :=
  s.terminate = false →
    countWork s.inQ + s.acks + crashedCount s.workers = s.fed ∧
    s.fed ≤ names.length ∧
    s.outQ.length + s.collector.completed = s.acks ∧
    (s.collectorDone = true → names.length ≤ s.collector.completed)

theorem Inv_init : Inv names (initState nProc) := by
  intro _
  refine ⟨?_, ?_, ?_, ?_⟩
  · simp [initState, countWork, crashedCount_replicate_running]
  · simp [initState]
  · simp [initState]
  · intro h; simp [initState] at h

theorem Step.terminate_mono {a : Act} {s s' : SysState}
    (h : Step names nProc maxSize fitK gp mm saveM a s s')
    (ht : s.terminate = true) : s'.terminate = true := by
  cases h <;> simp_all

theorem Inv_step {a : Act} {s s' : SysState}
    (h : Step names nProc maxSize fitK gp mm saveM a s s')
    (hs : Inv names s) : Inv names s' := by
  intro ht'
  have hts : s.terminate = false := by
    by_contra hc
    rw [Bool.not_eq_false] at hc
    rw [Step.terminate_mono names nProc maxSize fitK gp mm saveM h hc] at ht'
    exact absurd ht' (by simp)
  obtain ⟨hc1, hc2, hc3, hc4⟩ := hs hts
  cases h with
  | feed_put s h1 h2 h3 h4 =>
    dsimp only
    refine ⟨?_, by omega, hc3, hc4⟩
    rw [countWork_append_work]
    omega
  | feed_full s h1 h2 h3 h4 => exact ⟨hc1, hc2, hc3, hc4⟩
  | feed_exit s h1 h2 => exact ⟨hc1, hc2, hc3, hc4⟩
  | feed_check_cancelled s h1 h2 => exact ⟨hc1, hc2, hc3, hc4⟩
  | feed_check_clear s h1 h2 => exact ⟨hc1, hc2, hc3, hc4⟩
  | feed_sentinel s h1 h2 h3 =>
    dsimp only
    rw [countWork_append_stop]
    exact ⟨hc1, hc2, hc3, hc4⟩
  | feed_stop_done s h1 h2 => exact ⟨hc1, hc2, hc3, hc4⟩
  | worker_stop s i rest h1 h2 =>
    dsimp only
    rw [crashedCount_set_stopped _ _ h1]
    rw [h2, countWork_cons_stop] at hc1
    exact ⟨hc1, hc2, hc3, hc4⟩
  | worker_work s i w rest r h1 h2 h3 =>
    dsimp only
    rw [h2, countWork_cons_work] at hc1
    refine ⟨by omega, hc2, ?_, hc4⟩
    rw [List.length_append]
    simp only [List.length_cons, List.length_nil]
    omega
  | worker_crash s i w rest h1 h2 h3 =>
    dsimp only
    rw [crashedCount_set_crashed _ _ h1]
    rw [h2, countWork_cons_work] at hc1
    exact ⟨by omega, hc2, hc3, hc4⟩
  | worker_interrupt s i h1 =>
    dsimp only at ht'
    exact absurd ht' (by decide)
  | cancel s =>
    dsimp only at ht'
    exact absurd ht' (by decide)
  | collect_get s r rest h1 h2 h3 h4 =>
    dsimp only
    rw [h4, List.length_cons] at hc3
    rw [collectStep_completed]
    refine ⟨hc1, hc2, by omega, ?_⟩
    intro hdone
    rw [h1] at hdone
    simp at hdone
  | collect_empty s h1 h2 h3 h4 => exact ⟨hc1, hc2, hc3, hc4⟩
  | collect_exit s h1 h2 =>
    dsimp only
    refine ⟨hc1, hc2, hc3, fun _ => ?_⟩
    rcases not_and_or.mp h2 with hlt | hq
    · exact Nat.le_of_not_lt hlt
    · exact absurd hts hq

theorem Inv_reachable {s : SysState}
    (h : Reachable names nProc maxSize fitK gp mm saveM s) : Inv names s := by
  induction h with
  | refl => exact Inv_init names nProc
  | tail hr hstep ih =>
    obtain ⟨a, hst⟩ := hstep
    exact Inv_step names nProc maxSize fitK gp mm saveM hst ih

/-- C6: each worker pushes exactly one result onto the output queue and
acknowledges exactly once per consumed work item (invariant pairing
`acks` with pushed-plus-collected results), so when the per-file job
completes normally — never cancelled, feeder finished, every worker
stopped by its sentinel, collector loop finished — the number of
input-queue acknowledgments equals the number of submitted work items. -/
theorem claim_c6_acks_equal_submitted (s : SysState)
    (hr : Reachable names nProc maxSize fitK gp mm saveM s)
    (ht : s.terminate = false) (_hph : s.phase = FPhase.done)
    (_hws : ∀ x ∈ s.workers, x = WStatus.stopped) (hcd : s.collectorDone = true) :
    s.acks = names.length ∧ s.collector.completed = names.length ∧ s.outQ = [] := by
  obtain ⟨hc1, hc2, hc3, hc4⟩ :=
    Inv_reachable names nProc maxSize fitK gp mm saveM hr ht
  have hlen : names.length ≤ s.collector.completed := hc4 hcd
  have houtq : s.outQ.length = 0 := by omega
  exact ⟨by omega, by omega, List.length_eq_zero.mp houtq⟩

end JobInv

/-! ### A concrete normally-completing run (one item, one worker) -/

/-- The final state of the concrete one-item, one-worker run below:
item fed, sentinel emitted and consumed, result collected, feeder and
collector done, worker stopped, flag never set. -/
def cFinal : SysState :=
  ⟨false, [], [], 1, FPhase.done, 1, [WStatus.stopped],
    ⟨[some ⟨⟨0, 0, 0⟩, 0, 1⟩], [("00_0001".data, [some 0])], [], 1⟩, true, 1⟩

theorem cFinal_reachable : Reachable [cItem] 1 100 cFitOk cGp cMm false cFinal := by
  have t0 : Reachable [cItem] 1 100 cFitOk cGp cMm false (initState 1) :=
    Relation.ReflTransGen.refl
  have t1 := Relation.ReflTransGen.tail t0
    ⟨Act.int, Step.feed_put (initState 1) rfl rfl (by decide) (by decide)⟩
  have t2 := Relation.ReflTransGen.tail t1
    ⟨Act.int, Step.feed_exit _ rfl (by decide)⟩
  have t3 := Relation.ReflTransGen.tail t2
    ⟨Act.int, Step.feed_check_clear _ rfl rfl⟩
  have t4 := Relation.ReflTransGen.tail t3
    ⟨Act.int, Step.feed_sentinel _ rfl (by decide) (by decide)⟩
  have t5 := Relation.ReflTransGen.tail t4
    ⟨Act.int, Step.feed_stop_done _ rfl (by decide)⟩
  have t6 := Relation.ReflTransGen.tail t5
    ⟨Act.int, Step.worker_work _ 0 cItem [QItem.stop] cResOk rfl rfl (by decide)⟩
  have t7 := Relation.ReflTransGen.tail t6
    ⟨Act.int, Step.worker_stop _ 0 [] rfl rfl⟩
  have t8 := Relation.ReflTransGen.tail t7
    ⟨Act.int, Step.collect_get _ cResOk [] rfl (by decide) rfl rfl⟩
  have t9 := Relation.ReflTransGen.tail t8
    ⟨Act.int, Step.collect_exit _ rfl (by decide)⟩
  exact t9

theorem claim_c6_acks_equal_submitted_witness :
    (Reachable [cItem] 1 100 cFitOk cGp cMm false cFinal ∧
      cFinal.terminate = false ∧ cFinal.phase = FPhase.done ∧
      (∀ x ∈ cFinal.workers, x = WStatus.stopped) ∧ cFinal.collectorDone = true) ∧
    (cFinal.acks = [cItem].length ∧ cFinal.collector.completed = [cItem].length ∧
      cFinal.outQ = []) :=
  ⟨⟨cFinal_reachable, rfl, rfl, by decide, rfl⟩,
    claim_c6_acks_equal_submitted [cItem] 1 100 cFitOk cGp cMm false cFinal
      cFinal_reachable rfl rfl (by decide) rfl⟩

/-! ### Cancellation (claim C1) -/

/-- The state reached when the run of an empty input archive with one
worker is cancelled before the feeder's post-loop check: flag set, no
sentinel emitted, the worker blocked in its timeout-less
`input_queue.get` on the empty queue. -/
def sCancelled : SysState :=
  ⟨true, [], [], 0, FPhase.done, 0, [WStatus.running], ⟨[], [], [], 0⟩, false, 0⟩

theorem sCancelled_reachable : Reachable [] 1 100 cFitOk cGp cMm false sCancelled := by
  have t0 : Reachable [] 1 100 cFitOk cGp cMm false (initState 1) :=
    Relation.ReflTransGen.refl
  have t1 := Relation.ReflTransGen.tail t0 ⟨Act.sig, Step.cancel (initState 1)⟩
  have t2 := Relation.ReflTransGen.tail t1 ⟨Act.int, Step.feed_exit _ rfl (by decide)⟩
  have t3 := Relation.ReflTransGen.tail t2
    ⟨Act.int, Step.feed_check_cancelled _ rfl rfl⟩
  exact t3

theorem cancelled_worker_stuck (s' : SysState)
    (h : Relation.ReflTransGen (Step [] 1 100 cFitOk cGp cMm false Act.int)
      sCancelled s') :
    s'.workers = [WStatus.running] ∧ s'.inQ = [] ∧ s'.phase = FPhase.done ∧
      s'.terminate = true := by
  induction h with
  | refl => exact ⟨rfl, rfl, rfl, rfl⟩
  | tail hr hstep ih =>
    obtain ⟨hw, hq, hp, htm⟩ := ih
    cases hstep with
    | feed_put s h1 h2 h3 h4 => rw [hp] at h1; exact absurd h1 (by decide)
    | feed_full s h1 h2 h3 h4 => rw [hp] at h1; exact absurd h1 (by decide)
    | feed_exit s h1 h2 => rw [hp] at h1; exact absurd h1 (by decide)
    | feed_check_cancelled s h1 h2 => rw [hp] at h1; exact absurd h1 (by decide)
    | feed_check_clear s h1 h2 => rw [hp] at h1; exact absurd h1 (by decide)
    | feed_sentinel s h1 h2 h3 => rw [hp] at h1; exact absurd h1 (by decide)
    | feed_stop_done s h1 h2 => rw [hp] at h1; exact absurd h1 (by decide)
    | worker_stop s i rest h1 h2 => rw [hq] at h2; exact absurd h2 (by simp)
    | worker_work s i w rest r h1 h2 h3 => rw [hq] at h2; exact absurd h2 (by simp)
    | worker_crash s i w rest h1 h2 h3 => rw [hq] at h2; exact absurd h2 (by simp)
    | collect_get s r rest h1 h2 h3 h4 => rw [htm] at h3; exact absurd h3 (by decide)
    | collect_empty s h1 h2 h3 h4 => exact ⟨hw, hq, hp, htm⟩
    | collect_exit s h1 h2 => exact ⟨hw, hq, hp, htm⟩

/-- C1 as stated is false on the code: there is a reachable cancelled
state — empty input archive, one worker, the flag set before the
feeder's post-loop check, so no sentinel was emitted — from which no
continuation of the components' own steps ever reaches a state without
a live worker process. The worker never observes the flag: its
blocking `input_queue.get` (line 67) has no timeout, so with the flag
set mid-run the worker does not finish-and-stop, the job does not end
with zero live workers, and not every blocking queue call is bounded by
a timeout. (Only a further external signal — a `KeyboardInterrupt`
delivered to the worker itself, label `Act.sig` — could stop it.) -/
theorem claim_c1_counterexample :
    Reachable [] 1 100 cFitOk cGp cMm false sCancelled ∧
    sCancelled.terminate = true ∧
    ¬ ∃ s', Relation.ReflTransGen (Step [] 1 100 cFitOk cGp cMm false Act.int)
        sCancelled s' ∧ WStatus.running ∉ s'.workers := by
  refine ⟨sCancelled_reachable, rfl, ?_⟩
  rintro ⟨s', hreach, hnone⟩
  obtain ⟨hw, _, _, _⟩ := cancelled_worker_stuck s' hreach
  rw [hw] at hnone
  exact hnone (by simp)

/-- C1 corrected: once the cancellation flag is set it stays set, the
feeder submits no further work item (`fed` frozen, no work item ever
enqueued again), and the collector's state is frozen (its loop exits
after at most one more 2-second timeout). But a worker does not observe
the flag: it keeps draining queued items, and its status changes only
by dequeuing the sentinel at the queue head, by crashing on an
unparsable id at the head, or by an external interrupt signal — never
by the flag itself, its blocking `get` having no timeout. -/
theorem claim_c1_flag_stops_feeder_collector_not_workers
    (names : List WorkItem) (nProc maxSize : Nat)
    (fitK : Img → Mask → Img → ScoreCube) (gp : ScoreCube → BaseParams)
    (mm : Img → Mask → Nat × Nat × Nat → Img) (saveM : Bool)
    {a : Act} {s s' : SysState}
    (h : Step names nProc maxSize fitK gp mm saveM a s s')
    (ht : s.terminate = true) :
    s'.terminate = true ∧ s'.fed = s.fed ∧ s'.collector = s.collector ∧
    countWork s'.inQ ≤ countWork s.inQ ∧
    (s'.workers ≠ s.workers → a = Act.sig ∨ s.inQ.head? = some QItem.stop ∨
      ∃ w rest, s.inQ = QItem.work w :: rest) := by
  cases h with
  | feed_put s h1 h2 h3 h4 => rw [ht] at h2; exact absurd h2 (by decide)
  | feed_full s h1 h2 h3 h4 => rw [ht] at h2; exact absurd h2 (by decide)
  | feed_exit s h1 h2 =>
    exact ⟨ht, rfl, rfl, le_refl _, fun hne => absurd rfl hne⟩
  | feed_check_cancelled s h1 h2 =>
    exact ⟨ht, rfl, rfl, le_refl _, fun hne => absurd rfl hne⟩
  | feed_check_clear s h1 h2 => rw [ht] at h2; exact absurd h2 (by decide)
  | feed_sentinel s h1 h2 h3 =>
    dsimp only
    rw [countWork_append_stop]
    exact ⟨ht, rfl, rfl, le_refl _, fun hne => absurd rfl hne⟩
  | feed_stop_done s h1 h2 =>
    exact ⟨ht, rfl, rfl, le_refl _, fun hne => absurd rfl hne⟩
  | worker_stop s i rest h1 h2 =>
    dsimp only
    rw [h2, countWork_cons_stop]
    exact ⟨ht, rfl, rfl, le_refl _,
      fun _ => Or.inr (Or.inl rfl)⟩
  | worker_work s i w rest r h1 h2 h3 =>
    dsimp only
    rw [h2, countWork_cons_work]
    exact ⟨ht, rfl, rfl, by omega, fun hne => absurd rfl hne⟩
  | worker_crash s i w rest h1 h2 h3 =>
    dsimp only
    rw [h2, countWork_cons_work]
    exact ⟨ht, rfl, rfl, by omega, fun _ => Or.inr (Or.inr ⟨w, rest, rfl⟩)⟩
  | worker_interrupt s i h1 =>
    exact ⟨rfl, rfl, rfl, le_refl _, fun _ => Or.inl rfl⟩
  | cancel s =>
    exact ⟨rfl, rfl, rfl, le_refl _, fun hne => absurd rfl hne⟩
  | collect_get s r rest h1 h2 h3 h4 => rw [ht] at h3; exact absurd h3 (by decide)
  | collect_empty s h1 h2 h3 h4 => rw [ht] at h3; exact absurd h3 (by decide)
  | collect_exit s h1 h2 =>
    exact ⟨ht, rfl, rfl, le_refl _, fun hne => absurd rfl hne⟩

/-- `sCancelled` after the collector's exit step. -/
def sCancelledDone : SysState :=
  ⟨true, [], [], 0, FPhase.done, 0, [WStatus.running], ⟨[], [], [], 0⟩, true, 0⟩

theorem claim_c1_flag_stops_feeder_collector_not_workers_witness :
    (Step [] 1 100 cFitOk cGp cMm false Act.int sCancelled sCancelledDone ∧
      sCancelled.terminate = true) ∧
    (sCancelledDone.terminate = true ∧ sCancelledDone.fed = sCancelled.fed ∧
      sCancelledDone.collector = sCancelled.collector ∧
      countWork sCancelledDone.inQ ≤ countWork sCancelled.inQ ∧
      (sCancelledDone.workers ≠ sCancelled.workers → Act.int = Act.sig ∨
        sCancelled.inQ.head? = some QItem.stop ∨
        ∃ w rest, sCancelled.inQ = QItem.work w :: rest)) :=
  ⟨⟨Step.collect_exit sCancelled rfl (by decide), rfl⟩,
    claim_c1_flag_stops_feeder_collector_not_workers [] 1 100 cFitOk cGp cMm false
      (Step.collect_exit sCancelled rfl (by decide)) rfl⟩

end DRE
